import Mathlib

/-!
Verification of the on-device capability checker extension.

The development shallowly embeds the three JavaScript source files
(`popup.js` and the two unnamed near-duplicate variants, called
`Part000` and `Part001` below) into Lean.  JavaScript values that the
embedded code inspects are modelled by the inductive `JsValue`;
host-environment calls that may throw are modelled by `CallResult`;
code that can throw is written in `Except Unit`, with `try`/`catch`
translated to explicit case analysis.
-/

set_option autoImplicit false

namespace OnDeviceCheck

/-- Model of the JavaScript values flowing through the availability
checker: the code inspects `undefined`, `null`, primitive tokens and
structured objects, reading only the `available` field of an object.
An object is modelled by whether it carries an `available` field
(`objAvail v`) or not (`objNoAvail`). -/
inductive JsValue where
  | undef : JsValue
  | nullv : JsValue
  | bool : Bool → JsValue
  | num : Int → JsValue
  | str : String → JsValue
  | objNoAvail : JsValue
  | objAvail : JsValue → JsValue
deriving DecidableEq

/-- JavaScript truthiness for the modelled values (`undefined`, `null`,
`false`, `0` and the empty string are falsy; every object is truthy). -/
def truthy : JsValue → Bool
  | .undef => false
  | .nullv => false
  | .bool b => b
  | .num n => n != 0
  | .str s => s != ""
  | .objNoAvail => true
  | .objAvail _ => true

/-- Result of awaiting a host-environment call: it either throws or
returns a value (returning `undefined` is a normal return). -/
inductive CallResult where
  | thrown : CallResult
  | ret : JsValue → CallResult
deriving DecidableEq

/-- Model of a capability handle found in the host environment.
`availabilityIsFn` models `typeof apiObject.availability === 'function'`;
`availability` models calling `apiObject.availability(args)` (with
`some args`) or `apiObject.availability()` (with `none`). -/
structure ApiHandle where
  availabilityIsFn : Bool
  availability : Option JsValue → CallResult

/-- Model of a capability descriptor (`apiDef`): the lookup key, the
optional `namespace` tag and the optional `fallback` key. -/
structure ApiDef where
  key : String
  nspace : Option String
  fallback : Option String

/-- Model of the host `window` object as far as the resolver reads it:
`ai` is `none` when `window.ai` is falsy, otherwise a lookup of its
members; `top` looks up top-level bindings (`none` when falsy). -/
structure Window where
  ai : Option (String → Option ApiHandle)
  top : String → Option ApiHandle

/-- A `try { body } catch { return 'error' }` wrapper: the value of the
body, with any escaped exception converted to the `error` status. -/
def runCatch (x : Except Unit JsValue) : JsValue :=
  match x with
  | Except.ok v => v
  | Except.error _ => JsValue.str "error"

namespace Popup

/-- Embedding of `getApiObject` from `popup.js` (lines 55-74): try
`window.ai[key]` when the namespace is `'ai'`, then `window[key]`,
then `window[fallback]`; first match wins, otherwise a null handle
with an empty location path. -/
def getApiObject (w : Window) (apiDef : ApiDef) : Option ApiHandle × String :=
  let viaAi : Option (ApiHandle × String) :=
    if apiDef.nspace == some "ai" then
      match w.ai with
      | some aiNs =>
        match aiNs apiDef.key with
        | some api => some (api, "window.ai." ++ apiDef.key)
        | none => none
      | none => none
    else none
  match viaAi with
  | some (api, p) => (some api, p)
  | none =>
    match w.top apiDef.key with
    | some api => (some api, "window." ++ apiDef.key)
    | none =>
      match apiDef.fallback with
      | some fb =>
        if fb != "" then
          match w.top fb with
          | some api => (some api, "window." ++ fb)
          | none => (none, "")
        else (none, "")
      | none => (none, "")

/-- Embedding of the status-classification tail of `checkAvailability`
(`popup.js` lines 100-106): `undefined` becomes `error`; an object with
a truthy `available` field yields that field, an object otherwise
yields `available_object`; accessing `.available` on `null` (whose
`typeof` is also `'object'`) throws; any other value is returned
unchanged. -/
def classifyStatusE (status : JsValue) : Except Unit JsValue :=
  if status == JsValue.undef then Except.ok (JsValue.str "error")
  else
    match status with
    | .nullv => Except.error ()
    | .objNoAvail => Except.ok (JsValue.str "available_object")
    | .objAvail av =>
      if truthy av then Except.ok av else Except.ok (JsValue.str "available_object")
    | v => Except.ok v

/-- Embedding of the body of `checkAvailability` from `popup.js`
(lines 76-113) up to but excluding the outer `catch`: a null handle is
`unavailable`; without an availability method the status is
`available_unknown_methods`; otherwise the arg-based call is tried
first when `args` is truthy (a throw is swallowed, leaving the status
`undefined`), then the no-arg call; a throw there returns `error` when
`args` was truthy and otherwise leaves the status `undefined`, which
the classification step also maps to `error`. -/
def checkAvailabilityE (apiObject : Option ApiHandle) (args : JsValue) :
    Except Unit JsValue :=
  match apiObject with
  | none => Except.ok (JsValue.str "unavailable")
  | some h =>
    if h.availabilityIsFn then
      let status1 : JsValue :=
        if truthy args then
          match h.availability (some args) with
          | .ret v => v
          | .thrown => JsValue.undef
        else JsValue.undef
      if status1 == JsValue.undef then
        match h.availability none with
        | .thrown =>
          if truthy args then Except.ok (JsValue.str "error")
          else classifyStatusE JsValue.undef
        | .ret v => classifyStatusE v
      else classifyStatusE status1
    else Except.ok (JsValue.str "available_unknown_methods")

/-- Embedding of `checkAvailability` from `popup.js` including the
outer `try`/`catch` (lines 109-112), which converts any escaped
exception into the `error` status. -/
def checkAvailability (apiObject : Option ApiHandle) (args : JsValue) : JsValue :=
  runCatch (checkAvailabilityE apiObject args)

end Popup

namespace Part000

/-- Embedding of `getApiObject` from the first unnamed source file
(lines 98-117); the body is textually identical to the `popup.js`
copy. -/
def getApiObject (w : Window) (apiDef : ApiDef) : Option ApiHandle × String :=
  let viaAi : Option (ApiHandle × String) :=
    if apiDef.nspace == some "ai" then
      match w.ai with
      | some aiNs =>
        match aiNs apiDef.key with
        | some api => some (api, "window.ai." ++ apiDef.key)
        | none => none
      | none => none
    else none
  match viaAi with
  | some (api, p) => (some api, p)
  | none =>
    match w.top apiDef.key with
    | some api => (some api, "window." ++ apiDef.key)
    | none =>
      match apiDef.fallback with
      | some fb =>
        if fb != "" then
          match w.top fb with
          | some api => (some api, "window." ++ fb)
          | none => (none, "")
        else (none, "")
      | none => (none, "")

/-- Status classification tail of `checkAvailability` in the first
unnamed source file (lines 147-153), identical to the `popup.js`
copy. -/
def classifyStatusE (status : JsValue) : Except Unit JsValue :=
  if status == JsValue.undef then Except.ok (JsValue.str "error")
  else
    match status with
    | .nullv => Except.error ()
    | .objNoAvail => Except.ok (JsValue.str "available_object")
    | .objAvail av =>
      if truthy av then Except.ok av else Except.ok (JsValue.str "available_object")
    | v => Except.ok v

/-- Body of `checkAvailability` from the first unnamed source file
(lines 119-160) without the outer `catch`; identical to the `popup.js`
copy modulo comments. -/
def checkAvailabilityE (apiObject : Option ApiHandle) (args : JsValue) :
    Except Unit JsValue :=
  match apiObject with
  | none => Except.ok (JsValue.str "unavailable")
  | some h =>
    if h.availabilityIsFn then
      let status1 : JsValue :=
        if truthy args then
          match h.availability (some args) with
          | .ret v => v
          | .thrown => JsValue.undef
        else JsValue.undef
      if status1 == JsValue.undef then
        match h.availability none with
        | .thrown =>
          if truthy args then Except.ok (JsValue.str "error")
          else classifyStatusE JsValue.undef
        | .ret v => classifyStatusE v
      else classifyStatusE status1
    else Except.ok (JsValue.str "available_unknown_methods")

/-- `checkAvailability` of the first unnamed source file including its
outer `try`/`catch`. -/
def checkAvailability (apiObject : Option ApiHandle) (args : JsValue) : JsValue :=
  runCatch (checkAvailabilityE apiObject args)

end Part000

namespace Part001

/-- Embedding of `getApiObject` from the second unnamed source file
(lines 39-58); the body is textually identical to the `popup.js`
copy. -/
def getApiObject (w : Window) (apiDef : ApiDef) : Option ApiHandle × String :=
  let viaAi : Option (ApiHandle × String) :=
    if apiDef.nspace == some "ai" then
      match w.ai with
      | some aiNs =>
        match aiNs apiDef.key with
        | some api => some (api, "window.ai." ++ apiDef.key)
        | none => none
      | none => none
    else none
  match viaAi with
  | some (api, p) => (some api, p)
  | none =>
    match w.top apiDef.key with
    | some api => (some api, "window." ++ apiDef.key)
    | none =>
      match apiDef.fallback with
      | some fb =>
        if fb != "" then
          match w.top fb with
          | some api => (some api, "window." ++ fb)
          | none => (none, "")
        else (none, "")
      | none => (none, "")

/-- Status classification tail of `checkAvailability` in the second
unnamed source file (lines 88-94), identical to the `popup.js` copy. -/
def classifyStatusE (status : JsValue) : Except Unit JsValue :=
  if status == JsValue.undef then Except.ok (JsValue.str "error")
  else
    match status with
    | .nullv => Except.error ()
    | .objNoAvail => Except.ok (JsValue.str "available_object")
    | .objAvail av =>
      if truthy av then Except.ok av else Except.ok (JsValue.str "available_object")
    | v => Except.ok v

/-- Body of `checkAvailability` from the second unnamed source file
(lines 60-101) without the outer `catch`; identical to the `popup.js`
copy modulo comments. -/
def checkAvailabilityE (apiObject : Option ApiHandle) (args : JsValue) :
    Except Unit JsValue :=
  match apiObject with
  | none => Except.ok (JsValue.str "unavailable")
  | some h =>
    if h.availabilityIsFn then
      let status1 : JsValue :=
        if truthy args then
          match h.availability (some args) with
          | .ret v => v
          | .thrown => JsValue.undef
        else JsValue.undef
      if status1 == JsValue.undef then
        match h.availability none with
        | .thrown =>
          if truthy args then Except.ok (JsValue.str "error")
          else classifyStatusE JsValue.undef
        | .ret v => classifyStatusE v
      else classifyStatusE status1
    else Except.ok (JsValue.str "available_unknown_methods")

/-- `checkAvailability` of the second unnamed source file including
its outer `try`/`catch`. -/
def checkAvailability (apiObject : Option ApiHandle) (args : JsValue) : JsValue :=
  runCatch (checkAvailabilityE apiObject args)

end Part001

/-- Sentence-terminator characters of the chunk-splitting regex
`/[^.!?\n]+[.!?\n]+/g` in `runSummarization`. -/
def isTerm (c : Char) : Bool := c == '.' || c == '!' || c == '?' || c == '\n'

namespace Part000

/-- The fixed chunk bound of `runSummarization` (line 44). -/
def CHUNK_SIZE : Nat := 4000

/-- Embedding of `text.match(/[^.!?\n]+[.!?\n]+/g)` (line 59): scanning
left to right, a match is a maximal run of non-terminators followed by
a maximal non-empty run of terminators; positions where no match can
start are skipped.  Returns the list of matches ( `[]` plays the role
of the `null` result). -/
def sentSplit : List Char → List (List Char)
  | [] => []
  | c :: cs =>
    if isTerm c then sentSplit cs
    else
      if ((c :: cs).dropWhile (fun x => !isTerm x)).takeWhile isTerm = [] then []
      else
        ((c :: cs).takeWhile (fun x => !isTerm x) ++
            ((c :: cs).dropWhile (fun x => !isTerm x)).takeWhile isTerm) ::
          sentSplit (((c :: cs).dropWhile (fun x => !isTerm x)).dropWhile isTerm)
termination_by l => l.length
decreasing_by
  · simp
  · rename_i hc _
    have h1 : (c :: cs).dropWhile (fun x => !isTerm x) =
        cs.dropWhile (fun x => !isTerm x) := by
      simp [List.dropWhile_cons, hc]
    calc ((((c :: cs).dropWhile (fun x => !isTerm x)).dropWhile isTerm)).length
        ≤ ((c :: cs).dropWhile (fun x => !isTerm x)).length :=
          (List.dropWhile_sublist _).length_le
      _ ≤ cs.length := by
          rw [h1]; exact (List.dropWhile_sublist _).length_le
      _ < (c :: cs).length := by simp

/-- The sentence list used by `runSummarization`:
`text.match(...) || [text]` — when no match exists the whole text is a
single degenerate sentence. -/
def sentencesOf (text : List Char) : List (List Char) :=
  if sentSplit text = [] then [text] else sentSplit text

/-- Embedding of the greedy packing loop of `runSummarization`
(lines 61-69), including the final `if (currentChunk)
chunks.push(currentChunk)` flush: a chunk is closed whenever appending
the next sentence would push the running chunk over `CHUNK_SIZE`. -/
def packChunks : List (List Char) → List Char → List (List Char)
  | [], cur => if cur = [] then [] else [cur]
  | s :: ss, cur =>
    if (cur ++ s).length > CHUNK_SIZE then cur :: packChunks ss s
    else packChunks ss (cur ++ s)

/-- The chunk sequence produced by the splitting step of
`runSummarization` for a given input text. -/
def chunksOf (text : List Char) : List (List Char) :=
  packChunks (sentencesOf text) []

end Part000

/-- Observable lifecycle events on a model session, used to audit the
resource-safety contract. -/
inductive SessionEv where
  | created : SessionEv
  | destroyed : SessionEv
deriving DecidableEq

namespace Part000

/-- Behaviour of a summarizer capability as seen by `runSummarization`:
each `summarize` call either throws or returns a summary. -/
structure SummarizerApi where
  summarize : List Char → Except Unit (List Char)

/-- Base case of `runSummarization` (lines 47-52): create a session,
summarize, destroy, return.  The `destroy` call textually follows the
`summarize` call with no `finally`, so a throw from `summarize`
propagates before `destroy` runs; the event trace records exactly the
lifecycle calls that execute. -/
def baseSummarize (api : SummarizerApi) (text : List Char) :
    Except Unit (List Char) × List SessionEv :=
  match api.summarize text with
  | .error e => (.error e, [SessionEv.created])
  | .ok r => (.ok r, [SessionEv.created, SessionEv.destroyed])

/-- The sequential per-chunk summarization loop (lines 79-82): stops at
the first throw. -/
def summarizeChunks (api : SummarizerApi) :
    List (List Char) → Except Unit (List (List Char))
  | [] => .ok []
  | c :: cs =>
    match api.summarize c with
    | .error e => .error e
    | .ok s =>
      match summarizeChunks api cs with
      | .error e => .error e
      | .ok ss => .ok (s :: ss)

/-- Batch phase of `runSummarization` (lines 76-85): one session for
the whole chunk batch, with the loop wrapped in
`try { ... } finally { summarizer.destroy() }`, so the destroy event is
emitted on both the success and the failure exit. -/
def batchSummarize (api : SummarizerApi) (chunks : List (List Char)) :
    Except Unit (List (List Char)) × List SessionEv :=
  (summarizeChunks api chunks, [SessionEv.created, SessionEv.destroyed])

end Part000

/-- JavaScript `String.prototype.trim` on the characters the panel
handles: strip leading and trailing whitespace. -/
def jsTrim (s : List Char) : List Char :=
  ((s.dropWhile Char.isWhitespace).reverse.dropWhile Char.isWhitespace).reverse

/-- JSON abstract values, the result type of the modelled host
`JSON.parse`. -/
inductive Json where
  | null : Json
  | bool : Bool → Json
  | num : Int → Json
  | str : String → Json
  | arr : List Json → Json
  | obj : List (String × Json) → Json

/-- Whitespace accepted between JSON tokens. -/
def jsonWs (c : Char) : Bool := c == ' ' || c == '\t' || c == '\n' || c == '\r'

/-- The opening-brace character, written by code point. -/
def lbrace : Char := Char.ofNat 123

/-- The closing-brace character, written by code point. -/
def rbrace : Char := Char.ofNat 125

/-- The two-character string escapes of JSON, as a lookup table; the
`\u` form is outside the modelled fragment. -/
def escPairs : List (Char × Char) :=
  [('"', '"'), ('\\', '\\'), ('/', '/'), ('n', '\n'),
    ('t', '\t'), ('r', '\r'), ('b', Char.ofNat 8), ('f', Char.ofNat 12)]

/-- Decoding of a JSON string escape character via the table. -/
def escChar (c : Char) : Option Char :=
  (escPairs.find? (fun pr => pr.1 == c)).map Prod.snd

/-- Body of a JSON string after the opening quote: returns the decoded
characters and the input remaining after the closing quote. -/
def parseStringBody : List Char → Option (List Char × List Char)
  | [] => none
  | c :: rest =>
    if c == '"' then some ([], rest)
    else if c == '\\' then
      match rest with
      | [] => none
      | e :: rest2 =>
        match escChar e with
        | none => none
        | some ch =>
          match parseStringBody rest2 with
          | none => none
          | some (s, r) => some (ch :: s, r)
    else
      match parseStringBody rest with
      | none => none
      | some (s, r) => some (c :: s, r)

/-- Value of a digit run. -/
def digitsToNat (ds : List Char) : Nat :=
  ds.foldl (fun acc c => acc * 10 + (c.toNat - Char.toNat '0')) 0

/-- A JSON integer (optionally negated digit run).  Fractional and
exponent forms are outside the fragment of the host `JSON.parse`
modelled here; none of the verified inputs use them. -/
def parseNumberTail (cs : List Char) : Option (Int × List Char) :=
  match cs with
  | '-' :: rest =>
    let ds := rest.takeWhile Char.isDigit
    if ds = [] then none
    else some (-(digitsToNat ds : Int), rest.dropWhile Char.isDigit)
  | _ =>
    let ds := cs.takeWhile Char.isDigit
    if ds = [] then none
    else some ((digitsToNat ds : Int), cs.dropWhile Char.isDigit)

mutual

/-- A JSON value, by fuel-bounded recursive descent (the fuel passed by
`jsonParse` always suffices). -/
def parseValue : Nat → List Char → Option (Json × List Char)
  | 0, _ => none
  | fuel + 1, cs =>
    match cs.dropWhile jsonWs with
    | [] => none
    | c :: rest =>
      if c == lbrace then parseObjBody fuel rest
      else if c == '[' then parseArrBody fuel rest
      else if c == '"' then
        match parseStringBody rest with
        | some (s, r) => some (Json.str (String.mk s), r)
        | none => none
      else if c == 't' then
        if ("rue".toList).isPrefixOf rest then some (Json.bool true, rest.drop 3)
        else none
      else if c == 'f' then
        if ("alse".toList).isPrefixOf rest then some (Json.bool false, rest.drop 4)
        else none
      else if c == 'n' then
        if ("ull".toList).isPrefixOf rest then some (Json.null, rest.drop 3)
        else none
      else
        match parseNumberTail (c :: rest) with
        | some (n, r) => some (Json.num n, r)
        | none => none

/-- Array elements after the opening bracket. -/
def parseArrBody : Nat → List Char → Option (Json × List Char)
  | 0, _ => none
  | fuel + 1, cs =>
    match cs.dropWhile jsonWs with
    | ']' :: rest => some (Json.arr [], rest)
    | _ =>
      match parseValue fuel (cs.dropWhile jsonWs) with
      | none => none
      | some (v, r) => parseArrRest fuel [v] r

/-- Remaining array elements, with the elements seen so far
accumulated in reverse. -/
def parseArrRest : Nat → List Json → List Char → Option (Json × List Char)
  | 0, _, _ => none
  | fuel + 1, acc, cs =>
    match cs.dropWhile jsonWs with
    | ']' :: rest => some (Json.arr acc.reverse, rest)
    | ',' :: rest =>
      match parseValue fuel rest with
      | none => none
      | some (v, r) => parseArrRest fuel (v :: acc) r
    | _ => none

/-- One `"key": value` member of an object. -/
def parseMember : Nat → List Char → Option ((String × Json) × List Char)
  | 0, _ => none
  | fuel + 1, cs =>
    match cs.dropWhile jsonWs with
    | [] => none
    | c :: rest =>
      if c == '"' then
        match parseStringBody rest with
        | none => none
        | some (k, r) =>
          match r.dropWhile jsonWs with
          | ':' :: r2 =>
            match parseValue fuel r2 with
            | none => none
            | some (v, r3) => some ((String.mk k, v), r3)
          | _ => none
      else none

/-- Object members after the opening brace. -/
def parseObjBody : Nat → List Char → Option (Json × List Char)
  | 0, _ => none
  | fuel + 1, cs =>
    match cs.dropWhile jsonWs with
    | [] => none
    | c :: rest =>
      if c == rbrace then some (Json.obj [], rest)
      else
        match parseMember fuel (c :: rest) with
        | none => none
        | some (kv, r) => parseObjRest fuel [kv] r

/-- Remaining object members, accumulated in reverse. -/
def parseObjRest : Nat → List (String × Json) → List Char → Option (Json × List Char)
  | 0, _, _ => none
  | fuel + 1, acc, cs =>
    match cs.dropWhile jsonWs with
    | [] => none
    | c :: rest =>
      if c == rbrace then some (Json.obj acc.reverse, rest)
      else if c == ',' then
        match parseMember fuel rest with
        | none => none
        | some (kv, r) => parseObjRest fuel (kv :: acc) r
      else none

end

/-- Model of the host `JSON.parse` on the fragment of JSON the panel
exchanges with the model: parse one value, then require only trailing
whitespace. -/
def jsonParse (cs : List Char) : Option Json :=
  match parseValue (cs.length * 4 + 16) cs with
  | some (v, rest) => if rest.dropWhile jsonWs = [] then some v else none
  | none => none

namespace Popup

/-- Embedding of the markdown-fence stripping in the scan handler
(`popup.js` lines 304-308): trim, then if the text starts with three
backticks remove them together with an immediately following literal
`json` tag (the regex is `/^```(json)?/`), and remove a trailing
three-backtick fence (`/```$/`). -/
def stripFence (result : List Char) : List Char :=
  let t := jsTrim result
  if ("```".toList).isPrefixOf t then
    let t1 := t.drop 3
    let t2 := if ("json".toList).isPrefixOf t1 then t1.drop 4 else t1
    if ("```".toList).isSuffixOf t2 then t2.take (t2.length - 3) else t2
  else t

/-- The scan handler's parsing step (lines 304-318): fence stripping
followed by `JSON.parse`; a parse failure is an extraction error. -/
def parseModelOutput (result : List Char) : Option Json :=
  jsonParse (stripFence result)

/-- Behaviour of the language-model session used by the scan handler:
the prompt call either throws or returns raw text. -/
structure PromptApi where
  promptResult : Except Unit (List Char)

/-- Session lifecycle of the scan handler (`popup.js` lines 285-330):
the session is created, prompted and parsed, and `session.destroy()`
runs at the end of the `try` block, after parsing and the UI updates —
so a throw from the prompt or a parse failure reaches the `catch`
without the destroy having run. -/
def scanPhase (api : PromptApi) : Except Unit Json × List SessionEv :=
  match api.promptResult with
  | .error e => (.error e, [SessionEv.created])
  | .ok raw =>
    match parseModelOutput raw with
    | none => (.error (), [SessionEv.created])
    | some parsed => (.ok parsed, [SessionEv.created, SessionEv.destroyed])

/-- Case-insensitive literal prefix test, modelling a case-insensitive
regex match of an escaped (hence literal) pattern. -/
def startsWithCI : List Char → List Char → Bool
  | [], _ => true
  | _ :: _, [] => false
  | p :: ps, t :: ts => (p.toLower == t.toLower) && startsWithCI ps ts

/-- Case-insensitive substring test: `regex.test(text)` for the global
case-insensitive literal matcher (line 414). -/
def containsCI (pat : List Char) : List Char → Bool
  | [] => startsWithCI pat []
  | t :: ts => startsWithCI pat (t :: ts) || containsCI pat ts

/-- Scanning pass of `text.replace(regex, replacement)` for a global
case-insensitive literal pattern: replace each leftmost match and
continue after it.  Structured on fuel; `replaceAllCI` passes the text
length, which always suffices since every step consumes at least one
character of the text. -/
def replaceScanCI (pat repl : List Char) : Nat → List Char → List Char
  | _, [] => []
  | 0, text => text
  | fuel + 1, c :: rest =>
    if startsWithCI pat (c :: rest) then
      repl ++ replaceScanCI pat repl fuel ((c :: rest).drop pat.length)
    else c :: replaceScanCI pat repl fuel rest

/-- `text.replace(new RegExp(escapedOriginal, 'gi'), replacement)`
(line 415): global case-insensitive replacement of a literal pattern.
An empty pattern matches the empty string at every position, inserting
the replacement there, as the host regex does. -/
def replaceAllCI (pat repl text : List Char) : List Char :=
  if pat = [] then repl ++ (text.map (fun c => c :: repl)).flatten
  else replaceScanCI pat repl text.length text

/-- One iteration of the per-entry loop of the injected replacement
function (`popup.js` lines 404-418): when the matcher tests positive
the running text is rewritten and the modified flag set. -/
def replaceStep (acc : List Char × Bool) (e : List Char × List Char) :
    List Char × Bool :=
  if containsCI e.1 acc.1 then (replaceAllCI e.1 e.2 acc.1, true) else acc

/-- Per-text-node body of the injected replacement function
(`popup.js` lines 399-423): fold over the replacement entries in
order; the node value is rewritten only when the modified flag was
set. -/
def applyReplacements (entries : List (List Char × List Char)) (text : List Char) :
    List Char × Bool :=
  entries.foldl replaceStep (text, false)

/-- A `{loaded, total}` download-progress event. -/
structure ProgressEvent where
  loaded : ℚ
  total : ℚ

/-- The per-event percentage computed by the `monitor` callback
(`popup.js` line 178): `percent = loaded / total * 100`, reported in
arrival order with no clamping or maximum tracking. -/
def downloadPercents (events : List ProgressEvent) : List ℚ :=
  events.map (fun e => e.loaded / e.total * 100)

/-- A prompt session whose model output is not valid JSON even after
fence stripping. -/
def badParsePrompt : PromptApi where
  promptResult := Except.ok ("not json".toList)

/-- A host progress stream whose second event moves backwards. -/
def regressingEvents : List ProgressEvent :=
  [⟨50, 100⟩, ⟨30, 100⟩]

/-- A well-behaved increasing host progress stream. -/
def steadyEvents : List ProgressEvent :=
  [⟨1, 4⟩, ⟨2, 4⟩, ⟨4, 4⟩]

end Popup

/-- A truthy argument object, like a descriptor's `checkArgs`. -/
def argsSample : JsValue := JsValue.objNoAvail

/-- A handle whose arg-based probe throws and whose no-arg probe
returns the plain token `readily`. -/
def handleArgThrowNoArgReadily : ApiHandle where
  availabilityIsFn := true
  availability := fun o =>
    match o with
    | some _ => CallResult.thrown
    | none => CallResult.ret (JsValue.str "readily")

/-- A handle whose arg-based probe throws and whose no-arg probe
returns `null`. -/
def handleArgThrowNoArgNull : ApiHandle where
  availabilityIsFn := true
  availability := fun o =>
    match o with
    | some _ => CallResult.thrown
    | none => CallResult.ret JsValue.nullv

/-- A handle returning a host-specific token outside the enumerated
status set. -/
def handleBanana : ApiHandle where
  availabilityIsFn := true
  availability := fun _ => CallResult.ret (JsValue.str "banana")

/-- A handle returning an object whose `available` field is the falsy
empty string. -/
def handleFalsyAvail : ApiHandle where
  availabilityIsFn := true
  availability := fun _ => CallResult.ret (JsValue.objAvail (JsValue.str ""))

/-- A handle returning an object with a truthy `available` field. -/
def handleObjReadily : ApiHandle where
  availabilityIsFn := true
  availability := fun _ => CallResult.ret (JsValue.objAvail (JsValue.str "readily"))

namespace Part000

/-- A summarizer whose `summarize` call always throws. -/
def throwingSummarizer : SummarizerApi where
  summarize := fun _ => Except.error ()

/-- Chunk-boundary well-formedness for one adjacent pair: the boundary
does not fall inside a terminator run, i.e. the characters on both
sides of the boundary are never both terminators. -/
def boundaryOK (a b : List Char) : Prop :=
  ∀ x ∈ a.getLast?, ∀ y ∈ b.head?, ¬(isTerm x = true ∧ isTerm y = true)

/-- No chunk boundary of the sequence falls inside a run of sentence
terminators. -/
def noBoundaryInRun (chunks : List (List Char)) : Prop :=
  List.Chain' boundaryOK chunks

/-- A list starting with a non-terminator character. -/
def headNonterm (s : List Char) : Prop :=
  ∃ x xs, s = x :: xs ∧ isTerm x = false

/-- Text of length 4003 whose final character has no following
terminator, so the splitting regex drops it. -/
def fragmentText : List Char := List.replicate 4001 'a' ++ ['.', 'b']

/-- A single sentence of length 4002, exceeding the chunk bound. -/
def oversizedSentence : List Char := List.replicate 4001 'a' ++ ['.']

/-- Text of length 4002 that begins with a non-terminator and ends
with a terminator. -/
def coveredText : List Char := List.replicate 4000 'a' ++ ['b', '.']

end Part000

/-- C10: the capability-resolution and availability-probing functions
duplicated across the three source files are extensionally equal: for
every host environment, descriptor, handle and argument value, each
pair of copies returns the same result. -/
theorem duplicated_resolvers_agree :
    (∀ (w : Window) (d : ApiDef),
        Popup.getApiObject w d = Part000.getApiObject w d ∧
        Popup.getApiObject w d = Part001.getApiObject w d) ∧
    (∀ (o : Option ApiHandle) (args : JsValue),
        Popup.checkAvailability o args = Part000.checkAvailability o args ∧
        Popup.checkAvailability o args = Part001.checkAvailability o args) :=
  ⟨fun _ _ => ⟨rfl, rfl⟩, fun _ _ => ⟨rfl, rfl⟩⟩

/-- The possible shapes of a classified status value: the synthesized
`error` or `available_object` tokens, the status itself, or the
`available` field of an object status. -/
theorem runCatch_classifyStatusE_shape (v : JsValue) :
    runCatch (Popup.classifyStatusE v) = JsValue.str "error" ∨
    runCatch (Popup.classifyStatusE v) = JsValue.str "available_object" ∨
    runCatch (Popup.classifyStatusE v) = v ∨
    ∃ av, v = JsValue.objAvail av ∧ runCatch (Popup.classifyStatusE v) = av := by
  cases v
  case objAvail av =>
    by_cases h : truthy av = true
    · refine Or.inr (Or.inr (Or.inr ⟨av, rfl, ?_⟩))
      simp [Popup.classifyStatusE, runCatch, h]
    · refine Or.inr (Or.inl ?_)
      simp [Popup.classifyStatusE, runCatch, h]
  all_goals simp [Popup.classifyStatusE, runCatch]

/-- C3 (amended): when the arg-based availability call throws, the
no-arg call decides the outcome: a returned plain token is the result
unchanged, a returned object is classified through the `available`
field, a returned `undefined` or `null` yields `error`, and a second
throw (with `args` supplied) yields `error`. -/
theorem checkAvailability_two_phase_fallback (h : ApiHandle) (args : JsValue)
    (hfn : h.availabilityIsFn = true) (hargs : truthy args = true)
    (hthrow : h.availability (some args) = CallResult.thrown) :
    (∀ s, h.availability none = CallResult.ret (JsValue.str s) →
        Popup.checkAvailability (some h) args = JsValue.str s) ∧
    (∀ av, h.availability none = CallResult.ret (JsValue.objAvail av) →
        Popup.checkAvailability (some h) args =
          (if truthy av then av else JsValue.str "available_object")) ∧
    (h.availability none = CallResult.ret JsValue.objNoAvail →
        Popup.checkAvailability (some h) args = JsValue.str "available_object") ∧
    ((h.availability none = CallResult.ret JsValue.nullv ∨
        h.availability none = CallResult.ret JsValue.undef) →
        Popup.checkAvailability (some h) args = JsValue.str "error") ∧
    (h.availability none = CallResult.thrown →
        Popup.checkAvailability (some h) args = JsValue.str "error") := by
  refine ⟨?_, ?_, ?_, ?_, ?_⟩
  · intro s hv
    simp [Popup.checkAvailability, Popup.checkAvailabilityE, Popup.classifyStatusE,
      runCatch, hfn, hargs, hthrow, hv]
  · intro av hv
    by_cases hav : truthy av = true <;>
      simp [Popup.checkAvailability, Popup.checkAvailabilityE, Popup.classifyStatusE,
        runCatch, hfn, hargs, hthrow, hv, hav]
  · intro hv
    simp [Popup.checkAvailability, Popup.checkAvailabilityE, Popup.classifyStatusE,
      runCatch, hfn, hargs, hthrow, hv]
  · rintro (hv | hv) <;>
      simp [Popup.checkAvailability, Popup.checkAvailabilityE, Popup.classifyStatusE,
        runCatch, hfn, hargs, hthrow, hv]
  · intro hv
    simp [Popup.checkAvailability, Popup.checkAvailabilityE, Popup.classifyStatusE,
      runCatch, hfn, hargs, hthrow, hv]

/-- Witness for C3: a concrete handle whose arg-based probe throws and
whose no-arg probe returns `readily`; the probe result is `readily`. -/
theorem checkAvailability_two_phase_fallback_witness :
    (handleArgThrowNoArgReadily.availabilityIsFn = true ∧
      truthy argsSample = true ∧
      handleArgThrowNoArgReadily.availability (some argsSample) = CallResult.thrown) ∧
    Popup.checkAvailability (some handleArgThrowNoArgReadily) argsSample =
      JsValue.str "readily" :=
  ⟨⟨rfl, rfl, rfl⟩,
    (checkAvailability_two_phase_fallback handleArgThrowNoArgReadily argsSample
      rfl rfl rfl).1 "readily" rfl⟩

/-- Counterexample to C3 as stated: a handle whose arg-based probe
throws and whose no-arg probe returns the value `null` — a successful
call returning a value — yields `error`, because `typeof null` is
`'object'` and the `available` access throws into the outer catch. -/
theorem checkAvailability_null_result_counterexample :
    handleArgThrowNoArgNull.availability (some argsSample) = CallResult.thrown ∧
    handleArgThrowNoArgNull.availability none = CallResult.ret JsValue.nullv ∧
    Popup.checkAvailability (some handleArgThrowNoArgNull) argsSample =
      JsValue.str "error" :=
  ⟨rfl, rfl, rfl⟩

/-- C5 (amended): when the no-arg availability call yields a result, a
plain status token is returned unchanged; an object with a truthy
`available` field yields that field's value; an object whose
`available` field is falsy or absent yields `available_object`. -/
theorem checkAvailability_status_normalization (h : ApiHandle) (v : JsValue)
    (hfn : h.availabilityIsFn = true)
    (hv : h.availability none = CallResult.ret v) :
    (∀ s, v = JsValue.str s →
        Popup.checkAvailability (some h) JsValue.undef = JsValue.str s) ∧
    (∀ av, v = JsValue.objAvail av → truthy av = true →
        Popup.checkAvailability (some h) JsValue.undef = av) ∧
    (∀ av, v = JsValue.objAvail av → truthy av = false →
        Popup.checkAvailability (some h) JsValue.undef =
          JsValue.str "available_object") ∧
    (v = JsValue.objNoAvail →
        Popup.checkAvailability (some h) JsValue.undef =
          JsValue.str "available_object") := by
  have key : Popup.checkAvailability (some h) JsValue.undef =
      runCatch (Popup.classifyStatusE v) := by
    simp [Popup.checkAvailability, Popup.checkAvailabilityE, hfn, hv, truthy]
  refine ⟨?_, ?_, ?_, ?_⟩
  · rintro s rfl
    rw [key]; simp [Popup.classifyStatusE, runCatch]
  · rintro av rfl hav
    rw [key]; simp [Popup.classifyStatusE, runCatch, hav]
  · rintro av rfl hav
    rw [key]; simp [Popup.classifyStatusE, runCatch, hav]
  · rintro rfl
    rw [key]; simp [Popup.classifyStatusE, runCatch]

/-- Witness for C5: a handle returning `{available: 'readily'}`; the
probe result is the field value `readily`. -/
theorem checkAvailability_status_normalization_witness :
    (handleObjReadily.availabilityIsFn = true ∧
      handleObjReadily.availability none =
        CallResult.ret (JsValue.objAvail (JsValue.str "readily"))) ∧
    Popup.checkAvailability (some handleObjReadily) JsValue.undef =
      JsValue.str "readily" :=
  ⟨⟨rfl, rfl⟩,
    (checkAvailability_status_normalization handleObjReadily
        (JsValue.objAvail (JsValue.str "readily")) rfl rfl).2.1
      (JsValue.str "readily") rfl rfl⟩

/-- Counterexample to C5 as stated: for an object status whose
`available` field holds the (falsy) empty string, the probe returns
`available_object`, not the field's value. -/
theorem checkAvailability_falsy_available_counterexample :
    handleFalsyAvail.availability none =
      CallResult.ret (JsValue.objAvail (JsValue.str "")) ∧
    Popup.checkAvailability (some handleFalsyAvail) JsValue.undef =
      JsValue.str "available_object" ∧
    JsValue.str "available_object" ≠ JsValue.str "" :=
  ⟨rfl, rfl, by decide⟩

/-- When the probe result is the classification of some value `v`
returned by one of the two availability calls, it falls into the
synthesized-or-host-originated range. -/
theorem checkAvailability_shape_of_classify (h : ApiHandle) (args : JsValue)
    (v : JsValue)
    (e : Popup.checkAvailability (some h) args = runCatch (Popup.classifyStatusE v))
    (hsrc : h.availability (some args) = CallResult.ret v ∨
      h.availability none = CallResult.ret v) :
    Popup.checkAvailability (some h) args = JsValue.str "unavailable" ∨
    Popup.checkAvailability (some h) args = JsValue.str "error" ∨
    Popup.checkAvailability (some h) args = JsValue.str "available_unknown_methods" ∨
    Popup.checkAvailability (some h) args = JsValue.str "available_object" ∨
    ∃ h' v', (some h : Option ApiHandle) = some h' ∧
      (h'.availability (some args) = CallResult.ret v' ∨
        h'.availability none = CallResult.ret v') ∧
      (Popup.checkAvailability (some h) args = v' ∨
        ∃ av, v' = JsValue.objAvail av ∧
          Popup.checkAvailability (some h) args = av) := by
  rcases runCatch_classifyStatusE_shape v with h1 | h1 | h1 | ⟨av, rfl, h1⟩
  · exact Or.inr (Or.inl (e.trans h1))
  · exact Or.inr (Or.inr (Or.inr (Or.inl (e.trans h1))))
  · exact Or.inr (Or.inr (Or.inr (Or.inr ⟨h, v, rfl, hsrc, Or.inl (e.trans h1)⟩)))
  · exact Or.inr (Or.inr (Or.inr (Or.inr
      ⟨h, _, rfl, hsrc, Or.inr ⟨av, rfl, e.trans h1⟩⟩)))

/-- C6 (amended): for every handle and args value the probe resolves
without raising — modelled by the total `runCatch` wrapper — and its
result is either one of the synthesized statuses (`unavailable`,
`error`, `available_unknown_methods`, `available_object`) or a value
originating from the host's availability response: the returned status
itself or the `available` field of a returned object. -/
theorem checkAvailability_total_range (o : Option ApiHandle) (args : JsValue) :
    Popup.checkAvailability o args = JsValue.str "unavailable" ∨
    Popup.checkAvailability o args = JsValue.str "error" ∨
    Popup.checkAvailability o args = JsValue.str "available_unknown_methods" ∨
    Popup.checkAvailability o args = JsValue.str "available_object" ∨
    ∃ h' v', o = some h' ∧
      (h'.availability (some args) = CallResult.ret v' ∨
        h'.availability none = CallResult.ret v') ∧
      (Popup.checkAvailability o args = v' ∨
        ∃ av, v' = JsValue.objAvail av ∧
          Popup.checkAvailability o args = av) := by
  cases o with
  | none => exact Or.inl rfl
  | some h =>
    cases hfn : h.availabilityIsFn with
    | false =>
      refine Or.inr (Or.inr (Or.inl ?_))
      simp [Popup.checkAvailability, Popup.checkAvailabilityE, runCatch, hfn]
    | true =>
      cases htargs : truthy args with
      | false =>
        cases hnone : h.availability none with
        | thrown =>
          refine Or.inr (Or.inl ?_)
          simp [Popup.checkAvailability, Popup.checkAvailabilityE,
            Popup.classifyStatusE, runCatch, hfn, htargs, hnone]
        | ret w =>
          refine checkAvailability_shape_of_classify h args w ?_ (Or.inr hnone)
          simp [Popup.checkAvailability, Popup.checkAvailabilityE, hfn, htargs, hnone]
      | true =>
        cases hsome : h.availability (some args) with
        | thrown =>
          cases hnone : h.availability none with
          | thrown =>
            refine Or.inr (Or.inl ?_)
            simp [Popup.checkAvailability, Popup.checkAvailabilityE, runCatch,
              hfn, htargs, hsome, hnone]
          | ret w =>
            refine checkAvailability_shape_of_classify h args w ?_ (Or.inr hnone)
            simp [Popup.checkAvailability, Popup.checkAvailabilityE,
              hfn, htargs, hsome, hnone]
        | ret v =>
          by_cases hv : v = JsValue.undef
          · subst hv
            cases hnone : h.availability none with
            | thrown =>
              refine Or.inr (Or.inl ?_)
              simp [Popup.checkAvailability, Popup.checkAvailabilityE, runCatch,
                hfn, htargs, hsome, hnone]
            | ret w =>
              refine checkAvailability_shape_of_classify h args w ?_ (Or.inr hnone)
              simp [Popup.checkAvailability, Popup.checkAvailabilityE,
                hfn, htargs, hsome, hnone]
          · refine checkAvailability_shape_of_classify h args v ?_ (Or.inl hsome)
            simp [Popup.checkAvailability, Popup.checkAvailabilityE,
              hfn, htargs, hsome, hv]

/-- Counterexample to C6 as stated: a host token outside the
enumerated status set is passed through unchanged, so the result is
not always one of the nine enumerated values. -/
theorem checkAvailability_passthrough_counterexample :
    Popup.checkAvailability (some handleBanana) JsValue.undef =
      JsValue.str "banana" ∧
    JsValue.str "banana" ∉
      [JsValue.str "unavailable", JsValue.str "unavailable-no-handle",
        JsValue.str "error", JsValue.str "downloadable",
        JsValue.str "after-download", JsValue.str "readily",
        JsValue.str "available", JsValue.str "available_object",
        JsValue.str "available_unknown_methods"] :=
  ⟨rfl, by decide⟩

/-- Once the modified flag is set it stays set for the rest of the
entry loop. -/
theorem foldl_replaceStep_true :
    ∀ (es : List (List Char × List Char)) (acc : List Char × Bool),
      acc.2 = true → (es.foldl Popup.replaceStep acc).2 = true := by
  intro es
  induction es with
  | nil => intro acc h; exact h
  | cons e es ih =>
    intro acc h
    rw [List.foldl_cons]
    apply ih
    by_cases hc : Popup.containsCI e.1 acc.1 = true <;>
      simp [Popup.replaceStep, hc, h]

/-- A node whose modified flag stays false keeps its original value. -/
theorem applyReplacements_unmodified :
    ∀ (entries : List (List Char × List Char)) (text : List Char),
      (Popup.applyReplacements entries text).2 = false →
      (Popup.applyReplacements entries text).1 = text := by
  intro entries
  induction entries with
  | nil => intro t _; rfl
  | cons e es ih =>
    intro t hmod
    by_cases hc : Popup.containsCI e.1 t = true
    · exfalso
      have htrue : (Popup.applyReplacements (e :: es) t).2 = true := by
        show ((e :: es).foldl Popup.replaceStep (t, false)).2 = true
        rw [List.foldl_cons]
        exact foldl_replaceStep_true es _ (by simp [Popup.replaceStep, hc])
      rw [htrue] at hmod
      cases hmod
    · have hstep : Popup.replaceStep (t, false) e = (t, false) := by
        simp [Popup.replaceStep, hc]
      have heq : Popup.applyReplacements (e :: es) t =
          Popup.applyReplacements es t := by
        show ((e :: es).foldl Popup.replaceStep (t, false)) = _
        rw [List.foldl_cons, hstep]
        rfl
      rw [heq] at hmod ⊢
      exact ih t hmod

/-- C7: the replace-phase substitution builds a global case-insensitive
matcher per entry and substitutes all occurrences; a node is rewritten
only if at least one mapping matched; in particular the mapping
`cat → dog` turns `The Cat sat.` into `The dog sat.`. -/
theorem replace_pipeline_correct :
    Popup.applyReplacements [("cat".toList, "dog".toList)] ("The Cat sat.".toList) =
      ("The dog sat.".toList, true) ∧
    (∀ (entries : List (List Char × List Char)) (text : List Char),
        (Popup.applyReplacements entries text).2 = false →
        (Popup.applyReplacements entries text).1 = text) :=
  ⟨by decide, applyReplacements_unmodified⟩

/-- Witness for C7: a concrete node where no mapping matches; the
modified flag is false and the value is unchanged. -/
theorem replace_pipeline_correct_witness :
    (Popup.applyReplacements [("zzz".toList, "y".toList)] ("abc".toList)).2 = false ∧
    (Popup.applyReplacements [("zzz".toList, "y".toList)] ("abc".toList)).1 =
      "abc".toList :=
  ⟨by decide, replace_pipeline_correct.2 _ _ (by decide)⟩

/-- C9 (amended): the monitor computes `percent = loaded/total*100` per
event and reports the values in arrival order; the reported sequence is
monotonically non-decreasing whenever the host's `loaded/total` ratios
are, and no monotonicity is enforced beyond that. -/
theorem downloadPercents_monotone (events : List Popup.ProgressEvent)
    (h : List.Chain' (fun a b => a.loaded / a.total ≤ b.loaded / b.total) events) :
    List.Chain' (· ≤ ·) (Popup.downloadPercents events) := by
  unfold Popup.downloadPercents
  rw [List.chain'_map]
  exact List.Chain'.imp
    (fun a b hab => mul_le_mul_of_nonneg_right hab (by norm_num)) h

/-- Witness for C9: a concrete increasing host stream yields an
increasing percent sequence. -/
theorem downloadPercents_monotone_witness :
    List.Chain' (fun a b => a.loaded / a.total ≤ b.loaded / b.total)
      Popup.steadyEvents ∧
    List.Chain' (· ≤ ·) (Popup.downloadPercents Popup.steadyEvents) := by
  have hchain : List.Chain' (fun a b => a.loaded / a.total ≤ b.loaded / b.total)
      Popup.steadyEvents := by
    norm_num [Popup.steadyEvents, List.chain'_cons]
  exact ⟨hchain, downloadPercents_monotone _ hchain⟩

/-- Counterexample to C9 as stated: a host stream that moves backwards
is reported backwards — the percent sequence `[50, 30]` is not
monotonically non-decreasing. -/
theorem downloadPercents_counterexample :
    Popup.downloadPercents Popup.regressingEvents = [(50 : ℚ), 30] ∧
    ¬ List.Chain' (· ≤ ·) (Popup.downloadPercents Popup.regressingEvents) := by
  have e : Popup.downloadPercents Popup.regressingEvents = [(50 : ℚ), 30] := by
    norm_num [Popup.downloadPercents, Popup.regressingEvents]
  refine ⟨e, ?_⟩
  rw [e]
  intro hc
  rw [List.chain'_cons] at hc
  exact absurd hc.1 (by norm_num)

/-- `jsTrim` is the identity on text whose first and last characters
are not whitespace. -/
theorem jsTrim_eq_self (l : List Char)
    (h1 : ∀ x ∈ l.head?, x.isWhitespace = false)
    (h2 : ∀ x ∈ l.getLast?, x.isWhitespace = false) : jsTrim l = l := by
  have e1 : l.dropWhile Char.isWhitespace = l := by
    cases l with
    | nil => rfl
    | cons c cs =>
      rw [List.dropWhile_cons]
      simp [h1 c (by simp)]
  unfold jsTrim
  rw [e1]
  have e2 : l.reverse.dropWhile Char.isWhitespace = l.reverse := by
    cases hr : l.reverse with
    | nil => rfl
    | cons c cs =>
      have hc : l.getLast? = some c := by
        rw [← List.head?_reverse, hr]
        rfl
      rw [List.dropWhile_cons]
      simp [h2 c (by simp [hc])]
  rw [e2, List.reverse_reverse]

/-- The fence stripper removes exactly a leading backtick fence with
the literal `json` tag and a trailing backtick fence. -/
theorem stripFence_json_wrap (mid : List Char) :
    Popup.stripFence ("```json".toList ++ mid ++ "```".toList) = mid := by
  have hB : "```json".toList = Char.ofNat 96 :: Char.ofNat 96 :: Char.ofNat 96 ::
      'j' :: 's' :: 'o' :: 'n' :: [] := by decide
  have hJ : "json".toList = 'j' :: 's' :: 'o' :: 'n' :: [] := by decide
  have hFlen : ("```".toList).length = 3 := by decide
  have hhead : ("```json".toList ++ mid ++ "```".toList).head? =
      some (Char.ofNat 96) := by
    rw [hB]
    rfl
  have hlast : ("```json".toList ++ mid ++ "```".toList).getLast? =
      some (Char.ofNat 96) := by
    rw [List.getLast?_append_of_ne_nil _ (by decide)]
    decide
  have htrim : jsTrim ("```json".toList ++ mid ++ "```".toList) =
      "```json".toList ++ mid ++ "```".toList := by
    apply jsTrim_eq_self
    · intro x hx
      rw [hhead] at hx
      have hx' : Char.ofNat 96 = x := by simpa using hx
      subst hx'
      decide
    · intro x hx
      rw [hlast] at hx
      have hx' : Char.ofNat 96 = x := by simpa using hx
      subst hx'
      decide
  have hpre1 : ("```".toList).isPrefixOf
      ("```json".toList ++ mid ++ "```".toList) = true := by
    rw [List.isPrefixOf_iff_prefix]
    exact ((show "```".toList <+: "```json".toList by decide).trans
      (List.prefix_append _ mid)).trans (List.prefix_append _ _)
  have hdrop3 : ("```json".toList ++ mid ++ "```".toList).drop 3 =
      ("json".toList ++ mid) ++ "```".toList := by
    rw [hB, hJ]
    rfl
  have hpre2 : ("json".toList).isPrefixOf
      (("json".toList ++ mid) ++ "```".toList) = true := by
    rw [List.isPrefixOf_iff_prefix]
    exact (List.prefix_append _ mid).trans (List.prefix_append _ _)
  have hdrop4 : (("json".toList ++ mid) ++ "```".toList).drop 4 =
      mid ++ "```".toList := by
    rw [hJ]
    rfl
  have hsuf : ("```".toList).isSuffixOf (mid ++ "```".toList) = true := by
    rw [List.isSuffixOf_iff_suffix]
    exact List.suffix_append _ _
  have htake : (mid ++ "```".toList).take ((mid ++ "```".toList).length - 3) =
      mid := by
    rw [List.length_append, hFlen, Nat.add_sub_cancel]
    exact List.take_left _ _
  simp only [Popup.stripFence, htrim, hpre1, hdrop3, hpre2, hdrop4, hsuf, htake,
    if_true]

/-- C8 (amended): response parsing strips a leading triple-backtick
fence followed by the literal language tag `json` (only that tag), and
a trailing fence; the fenced JSON example parses to the expected word
category map. -/
theorem fence_strip_and_parse :
    (∀ mid : List Char,
        Popup.stripFence ("```json".toList ++ mid ++ "```".toList) = mid) ∧
    Popup.parseModelOutput
        ("```json\n\x7b\"nouns\":[\"cat\"],\"verbs\":[],\"adjectives\":[\"big\"]\x7d\n```".toList) =
      some (Json.obj [("nouns", Json.arr [Json.str "cat"]),
        ("verbs", Json.arr []), ("adjectives", Json.arr [Json.str "big"])]) :=
  ⟨stripFence_json_wrap, rfl⟩

/-- Counterexample to C8 as stated: a fence tagged with a language
token other than the literal `json` keeps the token, and the
structured parse of the remainder fails. -/
theorem fence_strip_counterexample :
    Popup.stripFence ("```python\n[1]\n```".toList) = "python\n[1]\n".toList ∧
    Popup.parseModelOutput ("```python\n[1]\n```".toList) = none :=
  ⟨rfl, rfl⟩

/-- C1 (code-bug demonstration): when the base-case `summarize` call
throws, or the scan-phase model output fails to parse, the operation
fails with no `destroy` event on its trace — the session leaks; only
the batch loop, whose `destroy` sits in a `finally`, destroys exactly
once on the failure exit as well. -/
theorem session_destroy_not_guaranteed :
    ((Part000.baseSummarize Part000.throwingSummarizer "hi.".toList).2.count
        SessionEv.destroyed = 0 ∧
      (Part000.baseSummarize Part000.throwingSummarizer "hi.".toList).1 =
        Except.error ()) ∧
    ((Popup.scanPhase Popup.badParsePrompt).2.count SessionEv.destroyed = 0 ∧
      (Popup.scanPhase Popup.badParsePrompt).1 = Except.error ()) ∧
    (Part000.batchSummarize Part000.throwingSummarizer ["hi.".toList]).2.count
        SessionEv.destroyed = 1 :=
  ⟨⟨rfl, rfl⟩, ⟨rfl, rfl⟩, rfl⟩

namespace Part000

/-- Every sentence produced by the splitting regex starts with a
non-terminator character. -/
theorem sentSplit_headNonterm (l : List Char) :
    ∀ s ∈ sentSplit l, headNonterm s := by
  induction l using sentSplit.induct with
  | case1 => intro s hs; rw [sentSplit] at hs; cases hs
  | case2 c cs hc ih => rw [sentSplit, if_pos hc]; exact ih
  | case3 c cs hc hb =>
    rw [sentSplit, if_neg hc, if_pos hb]; intro s hs; cases hs
  | case4 c cs hc hb ih =>
    rw [sentSplit, if_neg hc, if_neg hb]
    intro s hs
    rcases List.mem_cons.mp hs with rfl | hs
    · refine ⟨c, ?_, ?_, ?_⟩
      · exact (cs.takeWhile (fun x => !isTerm x)) ++
          (((c :: cs).dropWhile (fun x => !isTerm x)).takeWhile isTerm)
      · rw [List.takeWhile_cons]
        simp [hc]
      · simpa using hc
    · exact ih s hs

/-- When the text ends in a terminator, the matched sentences cover it
up to the skipped leading terminator run. -/
theorem sentSplit_flatten (l : List Char)
    (hl : ∀ x ∈ l.getLast?, isTerm x = true) :
    (sentSplit l).flatten = l.dropWhile isTerm := by
  induction l using sentSplit.induct with
  | case1 => rw [sentSplit]; rfl
  | case2 c cs hc ih =>
    rw [sentSplit, if_pos hc, List.dropWhile_cons, if_pos hc]
    apply ih
    intro x hx
    apply hl
    cases cs with
    | nil => cases hx
    | cons d ds => rw [List.getLast?_cons_cons]; exact hx
  | case3 c cs hc hb =>
    exfalso
    have hr : (c :: cs).dropWhile (fun x => !isTerm x) = [] := by
      cases hd : (c :: cs).dropWhile (fun x => !isTerm x) with
      | nil => rfl
      | cons y ys =>
        have hy : (fun x => !isTerm x) y = false := by
          have hhd := List.head_dropWhile_not (fun x => !isTerm x) (c :: cs)
            (by rw [hd]; simp)
          simpa [hd] using hhd
        have hy' : isTerm y = true := by simpa using hy
        rw [hd, List.takeWhile_cons, hy'] at hb
        simp at hb
    have hall : c :: cs = (c :: cs).takeWhile (fun x => !isTerm x) := by
      have hsplit := List.takeWhile_append_dropWhile
        (p := fun x => !isTerm x) (l := c :: cs)
      rw [hr] at hsplit
      simpa using hsplit.symm
    have hne : c :: cs ≠ ([] : List Char) := by simp
    have hmem : (c :: cs).getLast hne ∈ c :: cs := List.getLast_mem hne
    have hterm : isTerm ((c :: cs).getLast hne) = true := by
      apply hl
      simp [List.getLast?_eq_getLast (c :: cs) hne]
    have hmem2 : (c :: cs).getLast hne ∈
        (c :: cs).takeWhile (fun x => !isTerm x) := by
      rw [← hall]
      exact hmem
    have hnt := List.mem_takeWhile_imp hmem2
    simp [hterm] at hnt
  | case4 c cs hc hb ih =>
    rw [sentSplit, if_neg hc, if_neg hb, List.flatten_cons]
    have ihyp : ∀ x ∈ (((c :: cs).dropWhile
        (fun x => !isTerm x)).dropWhile isTerm).getLast?, isTerm x = true := by
      intro x hx
      have hne : ((c :: cs).dropWhile (fun x => !isTerm x)).dropWhile isTerm ≠ [] := by
        intro hnil
        rw [hnil] at hx
        cases hx
      have hsuf : ((c :: cs).dropWhile (fun x => !isTerm x)).dropWhile isTerm <:+
          c :: cs :=
        (List.dropWhile_suffix isTerm).trans
          (List.dropWhile_suffix (fun x => !isTerm x))
      obtain ⟨pre, hpre⟩ := hsuf
      apply hl
      rw [← hpre, List.getLast?_append_of_ne_nil pre hne]
      exact hx
    rw [ih ihyp, List.dropWhile_idempotent, List.append_assoc,
      List.takeWhile_append_dropWhile, List.takeWhile_append_dropWhile,
      List.dropWhile_cons]
    simp [hc]

/-- The greedy packer only regroups the sentences: flattening its
output prepends the running chunk to the flattened input. -/
theorem packChunks_flatten (ss : List (List Char)) :
    ∀ cur, (packChunks ss cur).flatten = cur ++ ss.flatten := by
  induction ss with
  | nil =>
    intro cur
    by_cases h : cur = [] <;> simp [packChunks, h]
  | cons s ss ih =>
    intro cur
    by_cases h : (cur ++ s).length > CHUNK_SIZE
    · rw [packChunks, if_pos h, List.flatten_cons, ih s, List.flatten_cons]
    · rw [packChunks, if_neg h, ih (cur ++ s), List.flatten_cons,
        List.append_assoc]

/-- Chunks produced by the greedy packer are empty or start with a
non-terminator, provided the incoming sentences and running chunk
do. -/
theorem packChunks_head (ss : List (List Char)) :
    ∀ cur, (∀ s ∈ ss, headNonterm s) → (cur = [] ∨ headNonterm cur) →
      ∀ ch ∈ packChunks ss cur, ch = [] ∨ headNonterm ch := by
  induction ss with
  | nil =>
    intro cur _ hcur ch hch
    by_cases h : cur = []
    · rw [packChunks, if_pos h] at hch; cases hch
    · rw [packChunks, if_neg h] at hch
      rw [List.mem_singleton.mp hch]
      exact hcur
  | cons s ss ih =>
    intro cur hss hcur ch hch
    by_cases h : (cur ++ s).length > CHUNK_SIZE
    · rw [packChunks, if_pos h] at hch
      rcases List.mem_cons.mp hch with rfl | hch
      · exact hcur
      · exact ih s (fun t ht => hss t (List.mem_cons_of_mem _ ht))
          (Or.inr (hss s (List.mem_cons_self _ _))) ch hch
    · rw [packChunks, if_neg h] at hch
      refine ih (cur ++ s) (fun t ht => hss t (List.mem_cons_of_mem _ ht)) ?_ ch hch
      rcases hcur with rfl | ⟨x, xs, rfl, hx⟩
      · exact Or.inr (by simpa using hss s (List.mem_cons_self _ _))
      · exact Or.inr ⟨x, xs ++ s, by simp, hx⟩

/-- A chunk list whose members are empty or start with a
non-terminator has no boundary inside a terminator run. -/
theorem chain_boundaryOK (l : List (List Char))
    (h : ∀ ch ∈ l, ch = [] ∨ headNonterm ch) : List.Chain' boundaryOK l := by
  induction l with
  | nil => exact List.chain'_nil
  | cons a l ih =>
    cases l with
    | nil => simp [List.chain'_singleton]
    | cons b l' =>
      rw [List.chain'_cons]
      constructor
      · rcases h b (by simp) with rfl | ⟨x, xs, rfl, hx⟩
        · intro y _ z hz
          simp at hz
        · intro y _ z hz
          have hzx : x = z := by simpa using hz
          subst hzx
          rintro ⟨-, hz2⟩
          rw [hx] at hz2
          cases hz2
      · exact ih (fun ch hch => h ch (List.mem_cons_of_mem _ hch))

/-- Every chunk of the greedy packer either respects the size bound or
is one of the incoming sentences. -/
theorem packChunks_size (ss : List (List Char)) :
    ∀ (cur : List Char) (S : List (List Char)),
      (∀ s ∈ ss, s ∈ S) → (cur.length ≤ CHUNK_SIZE ∨ cur ∈ S) →
      ∀ ch ∈ packChunks ss cur, ch.length ≤ CHUNK_SIZE ∨ ch ∈ S := by
  induction ss with
  | nil =>
    intro cur S _ hcur ch hch
    by_cases h : cur = []
    · rw [packChunks, if_pos h] at hch; cases hch
    · rw [packChunks, if_neg h] at hch
      rw [List.mem_singleton.mp hch]
      exact hcur
  | cons s ss ih =>
    intro cur S hss hcur ch hch
    by_cases h : (cur ++ s).length > CHUNK_SIZE
    · rw [packChunks, if_pos h] at hch
      rcases List.mem_cons.mp hch with rfl | hch
      · exact hcur
      · exact ih s S (fun t ht => hss t (List.mem_cons_of_mem _ ht))
          (Or.inr (hss s (List.mem_cons_self _ _))) ch hch
    · rw [packChunks, if_neg h] at hch
      exact ih (cur ++ s) S (fun t ht => hss t (List.mem_cons_of_mem _ ht))
        (Or.inl (Nat.le_of_not_lt h)) ch hch

/-- `takeWhile` passes a run of characters satisfying the predicate
through. -/
theorem takeWhile_replicate_append (p : Char → Bool) (c : Char) (h : p c = true)
    (n : Nat) (l : List Char) :
    (List.replicate n c ++ l).takeWhile p = List.replicate n c ++ l.takeWhile p := by
  induction n with
  | zero => simp
  | succ n ih => simp [List.replicate_succ, List.takeWhile_cons, h, ih]

/-- `dropWhile` skips a run of characters satisfying the predicate. -/
theorem dropWhile_replicate_append (p : Char → Bool) (c : Char) (h : p c = true)
    (n : Nat) (l : List Char) :
    (List.replicate n c ++ l).dropWhile p = l.dropWhile p := by
  induction n with
  | zero => simp
  | succ n ih => simp [List.replicate_succ, List.dropWhile_cons, h, ih]

/-- The splitting regex finds no match in an all-non-terminator
text. -/
theorem sentSplit_eq_nil_all (l : List Char)
    (h : ∀ x ∈ l, isTerm x = false) : sentSplit l = [] := by
  cases l with
  | nil => rw [sentSplit]
  | cons c cs =>
    have hd : (c :: cs).dropWhile (fun x => !isTerm x) = [] := by
      rw [List.dropWhile_eq_nil_iff]
      intro x hx
      simp [h x hx]
    rw [sentSplit, if_neg (by simp [h c (List.mem_cons_self _ _)]), hd]
    simp

/-- Sentence extraction for a text consisting of a non-terminator run,
one terminator, and a terminator-free tail: the run and terminator
form one sentence and scanning continues on the tail. -/
theorem sentSplit_run (m : Nat) (c d : Char) (hc : isTerm c = false)
    (hd : isTerm d = true) (w : List Char) (hw : ∀ x ∈ w, isTerm x = false) :
    sentSplit (List.replicate (m + 1) c ++ d :: w) =
      (List.replicate (m + 1) c ++ [d]) :: sentSplit w := by
  have hpc : (fun x => !isTerm x) c = true := by simp [hc]
  have e1 : (List.replicate m c ++ d :: w).takeWhile (fun x => !isTerm x) =
      List.replicate m c := by
    rw [takeWhile_replicate_append _ c hpc, List.takeWhile_cons]
    simp [hd]
  have e2 : (List.replicate m c ++ d :: w).dropWhile (fun x => !isTerm x) =
      d :: w := by
    rw [dropWhile_replicate_append _ c hpc, List.dropWhile_cons]
    simp [hd]
  have e3 : (d :: w).takeWhile isTerm = [d] := by
    have hnil : w.takeWhile isTerm = [] := by
      cases w with
      | nil => rfl
      | cons y ys =>
        rw [List.takeWhile_cons]
        simp [hw y (List.mem_cons_self _ _)]
    rw [List.takeWhile_cons]
    simp [hd, hnil]
  have e4 : (d :: w).dropWhile isTerm = w := by
    have hself : w.dropWhile isTerm = w := by
      cases w with
      | nil => rfl
      | cons y ys =>
        rw [List.dropWhile_cons]
        simp [hw y (List.mem_cons_self _ _)]
    rw [List.dropWhile_cons]
    simp [hd, hself]
  rw [List.replicate_succ, List.cons_append, sentSplit, if_neg (by simp [hc])]
  have hA : (c :: (List.replicate m c ++ d :: w)).takeWhile (fun x => !isTerm x) =
      c :: List.replicate m c := by
    rw [List.takeWhile_cons]
    simp [hpc, e1]
  have hB : (c :: (List.replicate m c ++ d :: w)).dropWhile (fun x => !isTerm x) =
      d :: w := by
    rw [List.dropWhile_cons]
    simp [hpc, e2]
  rw [hB, e3, e4, if_neg (by simp), hA]

/-- Length of a replicate run followed by a tail. -/
theorem replicate_append_length (n : Nat) (c : Char) (l : List Char) :
    (List.replicate n c ++ l).length = n + l.length := by
  rw [List.length_append, List.length_replicate]

/-- A replicate run followed by a cons is never empty. -/
theorem replicate_append_ne_nil (n : Nat) (c d : Char) (l : List Char) :
    List.replicate n c ++ d :: l ≠ [] := by
  cases n with
  | zero => exact List.cons_ne_nil _ _
  | succ m =>
    rw [List.replicate_succ, List.cons_append]
    exact List.cons_ne_nil _ _

/-- The greedy packer turns a single oversized sentence into an empty
chunk followed by the sentence itself. -/
theorem packChunks_single_oversized (s : List Char) (hs : s.length > CHUNK_SIZE)
    (hne : s ≠ []) : packChunks [s] [] = [[], s] := by
  rw [packChunks, if_pos (by simpa using hs), packChunks, if_neg hne]

/-- The chunk sequence of `fragmentText`: an empty chunk followed by
the single oversized sentence; the trailing fragment is dropped. -/
theorem chunksOf_fragmentText :
    chunksOf fragmentText = [[], List.replicate 4001 'a' ++ ['.']] := by
  have h1 : sentSplit fragmentText = [List.replicate 4001 'a' ++ ['.']] := by
    rw [show fragmentText = List.replicate (4000 + 1) 'a' ++ '.' :: ['b'] from rfl,
      sentSplit_run 4000 'a' '.' (by decide) (by decide) ['b'] (by decide),
      sentSplit_eq_nil_all ['b'] (by decide)]
  rw [chunksOf, sentencesOf, h1, if_neg (List.cons_ne_nil _ _)]
  exact packChunks_single_oversized _
    (by rw [replicate_append_length]; decide)
    (replicate_append_ne_nil 4001 'a' '.' [])

/-- Counterexample to C2 as stated: for this text longer than
`CHUNK_SIZE`, the final character has no terminator after it, the
splitter drops it, and the concatenation of the produced chunks is not
the original text. -/
theorem chunk_reconstruction_counterexample :
    fragmentText.length > CHUNK_SIZE ∧
    (chunksOf fragmentText).flatten ≠ fragmentText := by
  constructor
  · show (List.replicate 4001 'a' ++ ['.', 'b']).length > CHUNK_SIZE
    rw [replicate_append_length]
    decide
  · rw [chunksOf_fragmentText]
    simp only [List.flatten_cons, List.flatten_nil, List.nil_append,
      List.append_nil]
    intro h
    have hL := congrArg List.getLast? h
    rw [List.getLast?_append_of_ne_nil _ (List.cons_ne_nil '.' []),
      show fragmentText = List.replicate 4001 'a' ++ ['.', 'b'] from rfl,
      List.getLast?_append_of_ne_nil _ (List.cons_ne_nil '.' ['b'])] at hL
    exact absurd hL (by decide)

/-- C2 (amended): for every text longer than `CHUNK_SIZE` no chunk
boundary falls inside a run of sentence terminators — unconditionally;
and when the text additionally begins with a non-terminator and ends
with a terminator — so the regex's matches cover it — concatenating
all chunks in order reconstructs the text exactly. -/
theorem chunking_boundary_and_reconstruction (t : List Char)
    (hlen : t.length > CHUNK_SIZE) :
    noBoundaryInRun (chunksOf t) ∧
    ((∀ x ∈ t.head?, isTerm x = false) →
      (∀ x ∈ t.getLast?, isTerm x = true) →
      (chunksOf t).flatten = t) := by
  constructor
  · show List.Chain' boundaryOK (chunksOf t)
    by_cases hspl : sentSplit t = []
    · have hne : t ≠ [] := by
        intro hnil
        rw [hnil] at hlen
        exact absurd hlen (by decide)
      have hdeg : chunksOf t = [[], t] := by
        rw [chunksOf, sentencesOf, hspl, if_pos rfl]
        exact packChunks_single_oversized t hlen hne
      rw [hdeg]
      refine List.chain'_cons.mpr ⟨?_, ?_⟩
      · intro x hx
        simp at hx
      · simp [List.chain'_singleton]
    · apply chain_boundaryOK
      have hsent : ∀ s ∈ sentencesOf t, headNonterm s := by
        intro s hs
        rw [sentencesOf, if_neg hspl] at hs
        exact sentSplit_headNonterm t s hs
      rw [chunksOf]
      exact packChunks_head (sentencesOf t) [] hsent (Or.inl rfl)
  · intro hhead hlast
    rw [chunksOf, packChunks_flatten, List.nil_append, sentencesOf]
    by_cases hspl : sentSplit t = []
    · rw [if_pos hspl]
      simp
    · rw [if_neg hspl, sentSplit_flatten t hlast]
      cases t with
      | nil => rfl
      | cons c cs =>
        rw [List.dropWhile_cons]
        simp [hhead c (by simp)]

/-- Witness for C2: a concrete text of length 4002 beginning with a
non-terminator and ending with a terminator. -/
theorem chunking_boundary_and_reconstruction_witness :
    (coveredText.length > CHUNK_SIZE ∧
      (∀ x ∈ coveredText.head?, isTerm x = false) ∧
      (∀ x ∈ coveredText.getLast?, isTerm x = true)) ∧
    (noBoundaryInRun (chunksOf coveredText) ∧
      (chunksOf coveredText).flatten = coveredText) := by
  have h1 : coveredText.length > CHUNK_SIZE := by
    show (List.replicate 4000 'a' ++ ['b', '.']).length > CHUNK_SIZE
    rw [replicate_append_length]
    decide
  have h2 : ∀ x ∈ coveredText.head?, isTerm x = false := by
    intro x hx
    have e : coveredText.head? = some 'a' := rfl
    rw [e] at hx
    have hxa : 'a' = x := by simpa using hx
    subst hxa
    decide
  have h3 : ∀ x ∈ coveredText.getLast?, isTerm x = true := by
    intro x hx
    have e : coveredText.getLast? = some '.' := by
      show (List.replicate 4000 'a' ++ ['b', '.']).getLast? = some '.'
      rw [List.getLast?_append_of_ne_nil _ (List.cons_ne_nil 'b' ['.'])]
      rfl
    rw [e] at hx
    have hxd : '.' = x := by simpa using hx
    subst hxd
    decide
  have main := chunking_boundary_and_reconstruction coveredText h1
  exact ⟨⟨h1, h2, h3⟩, main.1, main.2 h2 h3⟩

/-- C4 (amended): every chunk produced by the greedy packer has length
at most `CHUNK_SIZE` unless it consists of a single sentence whose own
length already exceeds the bound. -/
theorem chunk_size_bound (t ch : List Char) (hch : ch ∈ chunksOf t) :
    ch.length ≤ CHUNK_SIZE ∨ ch ∈ sentencesOf t := by
  apply packChunks_size (sentencesOf t) [] (sentencesOf t)
    (fun _ hs => hs) (Or.inl (by simp))
  rw [chunksOf] at hch
  exact hch

/-- The chunk sequence of `oversizedSentence`. -/
theorem chunksOf_oversizedSentence :
    chunksOf oversizedSentence = [[], oversizedSentence] := by
  have h1 : sentSplit oversizedSentence = [oversizedSentence] := by
    rw [show oversizedSentence = List.replicate (4000 + 1) 'a' ++ '.' :: [] from rfl,
      sentSplit_run 4000 'a' '.' (by decide) (by decide) [] (by decide),
      sentSplit_eq_nil_all [] (by decide)]
  rw [chunksOf, sentencesOf, h1, if_neg (List.cons_ne_nil _ _)]
  exact packChunks_single_oversized _
    (by show (List.replicate 4001 'a' ++ ['.']).length > CHUNK_SIZE
        rw [replicate_append_length]
        decide)
    (replicate_append_ne_nil 4001 'a' '.' [])

/-- Counterexample to C4 as stated: a single sentence longer than
`CHUNK_SIZE` is emitted whole as a chunk of length 4002. -/
theorem chunk_size_counterexample :
    ∃ ch ∈ chunksOf oversizedSentence, ch.length > CHUNK_SIZE := by
  refine ⟨oversizedSentence, ?_, ?_⟩
  · rw [chunksOf_oversizedSentence]
    simp
  · show (List.replicate 4001 'a' ++ ['.']).length > CHUNK_SIZE
    rw [replicate_append_length]
    decide

/-- Witness for C4: the single chunk of a small sentence is within the
bound. -/
theorem chunk_size_bound_witness :
    (List.replicate 2 'a' ++ ['.']) ∈
      chunksOf (List.replicate 2 'a' ++ ['.']) ∧
    ((List.replicate 2 'a' ++ ['.']).length ≤ CHUNK_SIZE ∨
      (List.replicate 2 'a' ++ ['.']) ∈
        sentencesOf (List.replicate 2 'a' ++ ['.'])) := by
  have h1 : sentSplit (List.replicate 2 'a' ++ ['.']) =
      [List.replicate 2 'a' ++ ['.']] := by
    rw [show (List.replicate 2 'a' ++ ['.'] : List Char) =
        List.replicate (1 + 1) 'a' ++ '.' :: [] from rfl,
      sentSplit_run 1 'a' '.' (by decide) (by decide) [] (by decide),
      sentSplit_eq_nil_all [] (by decide)]
  have hchunks : chunksOf (List.replicate 2 'a' ++ ['.']) =
      [List.replicate 2 'a' ++ ['.']] := by
    rw [chunksOf, sentencesOf, h1, if_neg (by simp), packChunks,
      if_neg (by simp [CHUNK_SIZE]), packChunks, if_neg (by simp)]
    simp
  constructor
  · rw [hchunks]
    exact List.mem_singleton_self _
  · exact chunk_size_bound _ _ (by rw [hchunks]; exact List.mem_singleton_self _)

end Part000

end OnDeviceCheck

